import Mathlib

/-!
Verification of the candidate-set loss primitives of
`src/transformers/src/transformers/modeling_roberta.py`.

The relevant code paths are pure numerical functions on tensors, embedded
here as functions on lists of real numbers.  Tensors of shape `(N, d)`
become `List (List ℝ)`; integer index tensors become `List ℤ`.  Autograd
`detach` is modelled either by a value-level identity (`detachR`) or, where
a claim is about gradient flow, by a forward-mode dual-number structure
(`AD`) or a requires-grad tag on a batch (`TB`).
-/

namespace Roberta

/-! ## Basic numerical primitives shared by the loss heads -/

/-- Mean of a list of reals, as `tensor.mean()`: sum divided by length. -/
noncomputable def mean (xs : List ℝ) : ℝ := xs.sum / xs.length

/-- `torch.logsumexp` over the last axis of one row. -/
noncomputable def logsumexp (xs : List ℝ) : ℝ :=
  Real.log ((xs.map Real.exp).sum)

/-- `F.logsigmoid x = log (1 / (1 + exp (-x)))`. -/
noncomputable def logsigmoid (x : ℝ) : ℝ :=
  Real.log (1 / (1 + Real.exp (-x)))

/-- `F.softmax` over one row. -/
noncomputable def softmaxList (xs : List ℝ) : List ℝ :=
  xs.map (fun x => Real.exp x / ((xs.map Real.exp).sum))

/-- Dot product of two vectors, `torch.sum(a*b, dim=-1)`. -/
def dot (a b : List ℝ) : ℝ := (List.zipWith (· * ·) a b).sum

/-- `torch.norm(v, p=1, dim=-1)`: the L1 norm of one vector. -/
def l1norm (v : List ℝ) : ℝ := (v.map (fun x => |x|)).sum

/-- Elementwise vector addition. -/
def vadd (a b : List ℝ) : List ℝ := List.zipWith (· + ·) a b

/-- Elementwise vector subtraction. -/
def vsub (a b : List ℝ) : List ℝ := List.zipWith (· - ·) a b

/-- The large negative sentinel `-10000.0` used by the source in place of
`-inf` (span-loss mask overwrite and in-batch score masking). -/
def sentinelNeg : ℝ := -10000

/-! ## CandidateBatchLayout

`RobertaForFix.forward` / `RobertaForMerge.forward` derive
`bsz = flat_len // (neg_K + 2)` by integer floor division and slice the
flat batch as `[:bsz]`, `[bsz:2*bsz]`, `[2*bsz:]`.  No check of the flat
length is performed anywhere. -/

/-- `bsz = input_ids.shape[0] // (self.neg_K + 2)`. -/
def layoutBsz (len K : ℕ) : ℕ := len / (K + 2)

/-- The query / positive / negative slices
`entity_rep[:bsz]`, `entity_rep[bsz:2*bsz]`, `entity_rep[2*bsz:]`. -/
def layoutSlices {α : Type} (xs : List α) (K : ℕ) :
    List α × List α × List α :=
  let bsz := layoutBsz xs.length K
  (xs.take bsz, (xs.drop bsz).take bsz, xs.drop (2 * bsz))

/-! ## MarginalSpanLoss

`RobertaForTriviaQuestionAnswering.or_softmax_cross_entropy_loss_one_doc`:
multi-positive marginal cross-entropy with `ignore_index` semantics. -/

/-- `masked_target = target * (1 - target_mask.long())`: the target with
ignored slots replaced by the placeholder index `0`. -/
def maskedTargetZ (ignore t : ℤ) : ℤ :=
  t * (1 - (if t = ignore then (1 : ℤ) else 0))

/-- `gathered_logits = logits.gather(dim, masked_target)` followed by
`gathered_logits[target_mask] = -10000.0`: per target slot, the sentinel if
the slot is ignored, otherwise the logit at the (placeholder-replaced)
target index. -/
def gatherRow (ignore : ℤ) (row : List ℝ) (tgt : List ℤ) : List ℝ :=
  tgt.map (fun t =>
    if t = ignore then sentinelNeg
    else row.getD (maskedTargetZ ignore t).toNat 0)

/-- Per-example loss `-(log_score - log_norm)` where
`log_score = logsumexp(gathered_logits)` and `log_norm = logsumexp(logits)`. -/
noncomputable def or_loss_row (ignore : ℤ) (row : List ℝ) (tgt : List ℤ) : ℝ :=
  -(logsumexp (gatherRow ignore row tgt) - logsumexp row)

/-- `or_softmax_cross_entropy_loss_one_doc(logits, target, ignore_index)`:
per-example losses, then `loss.mean()`. -/
noncomputable def or_softmax_cross_entropy_loss_one_doc
    (logits : List (List ℝ)) (target : List (List ℤ)) (ignore : ℤ) : ℝ :=
  mean (List.zipWith (or_loss_row ignore) logits target)

/-- Targets are well formed for a row of length `L`: every non-ignored
entry is an in-range index. -/
def validRow (ignore : ℤ) (L : ℕ) (tgt : List ℤ) : Prop :=
  ∀ t ∈ tgt, t ≠ ignore → 0 ≤ t ∧ t.toNat < L

instance (ignore : ℤ) (L : ℕ) (tgt : List ℤ) :
    Decidable (validRow ignore L tgt) := by
  unfold validRow; infer_instance

/-- Spec-side step: replace ignored slots by the safe placeholder index 0. -/
def specPlaceholder (ignore : ℤ) (tgt : List ℤ) : List ℤ :=
  tgt.map (fun t => if t = ignore then 0 else t)

/-- Spec-side step: gather the row at each index. -/
def specGatherStep (row : List ℝ) (idx : List ℤ) : List ℝ :=
  idx.map (fun t => row.getD t.toNat 0)

/-- Spec-side step: overwrite the gathered values at ignored slots with the
large negative sentinel. -/
def specOverwrite (ignore : ℤ) (tgt : List ℤ) (g : List ℝ) : List ℝ :=
  List.zipWith (fun t v => if t = ignore then sentinelNeg else v) tgt g

/-- Spec-side gathered row `g_row`: gather at (placeholder-replaced) target
indices, then overwrite ignored slots with the sentinel. -/
def specGRow (ignore : ℤ) (row : List ℝ) (tgt : List ℤ) : List ℝ :=
  specOverwrite ignore tgt (specGatherStep row (specPlaceholder ignore tgt))

/-! ## In-batch negative scoring with false-negative masking

`RobertaForFix.forward` (and the `p is None` branch of
`RobertaForTogether.forward`):
`loss_mask = (cur_page_ids == neg_page_ids)` and
`neg_scores = query_rep @ neg_rep.T - 10000.0 * loss_mask`. -/

/-- Entry `(i, j)` of the masked in-batch negative score matrix. -/
def inBatchNegScore (queries negPool : List (List ℝ))
    (curIds negIds : List ℤ) (i j : ℕ) : ℝ :=
  dot (queries.getD i []) (negPool.getD j [])
    - 10000 * (if curIds.getD i 0 = negIds.getD j 0 then (1 : ℝ) else 0)

/-! ## Listwise softmax cross-entropy

`scores = torch.cat([pos_scores.unsqueeze(-1), neg_scores], dim=-1)`,
`labels = zeros(bsz)`, `CrossEntropyLoss()(scores, labels)` (mean
reduction), used by `RobertaForFix.forward` and `RobertaForMerge.forward`. -/

/-- Categorical cross-entropy of one row of logits against gold label 0:
`logsumexp(row) - row[0]`. -/
noncomputable def ceRow0 (row : List ℝ) : ℝ := logsumexp row - row.getD 0 0

/-- Listwise loss: per example, logits `[positive_score, negatives...]`
with gold label 0; mean over the batch. -/
noncomputable def listwiseLoss (pos : List ℝ) (negs : List (List ℝ)) : ℝ :=
  mean (List.zipWith (fun p ns => ceRow0 (p :: ns)) pos negs)

/-! ## RobertaForTransE.forward: margin loss with self-adversarial weighting

Scores: `positive_score = γ - ‖h + r - t‖₁` and, for the tail-replacement
branch, `n_score = (h + r).unsqueeze(1) - neg_t`,
`negative_score = γ - ‖n_score‖₁`.  Loss (no subsampling weight):

    negative_score = (softmax(negative_score).detach()
                       * logsigmoid(-negative_score)).sum(dim=1)
    positive_score = logsigmoid(positive_score)
    loss = (-positive_score.mean() + -negative_score.mean()) / 2
-/

/-- `tensor.detach()` at value level: the identity on values. -/
def detachR (x : ℝ) : ℝ := x

/-- Per-example negative term
`(softmax(row).detach() * logsigmoid(-row)).sum()`. -/
noncomputable def transeNegRow (row : List ℝ) : ℝ :=
  (List.zipWith (fun w s => detachR w * logsigmoid (-s))
    (softmaxList row) row).sum

/-- The TransE loss as a function of positive and negative score tensors
(the `subsampling_weight is None` branch). -/
noncomputable def transeLossFromScores (pos : List ℝ) (negs : List (List ℝ)) : ℝ :=
  (-(mean (pos.map logsigmoid)) + -(mean (negs.map transeNegRow))) / 2

/-- The full forward pass of `RobertaForTransE` for the
relation-embedding branch with negative tails: rows `h_i`, `r_i`, `t_i`
and negative tails `negT_i j`. -/
noncomputable def transeForward (γ : ℝ) (h r t : List (List ℝ))
    (negT : List (List (List ℝ))) : ℝ :=
  transeLossFromScores
    (List.zipWith (fun a b => γ - l1norm (vsub a b))
      (List.zipWith vadd h r) t)
    (List.zipWith (fun a row => row.map (fun b => γ - l1norm (vsub a b)))
      (List.zipWith vadd h r) negT)

/-! ### Forward-mode dual numbers

`AD` carries a value together with a directional derivative, so that
`detach` (which zeroes the derivative but keeps the value) can be
distinguished from the identity.  Arithmetic follows the usual
forward-mode rules. -/

/-- A dual number: value and directional derivative. -/
@[ext]
structure AD : Type where
  val : ℝ
  grad : ℝ

instance : Add AD := ⟨fun a b => ⟨a.val + b.val, a.grad + b.grad⟩⟩

instance : Mul AD := ⟨fun a b => ⟨a.val * b.val, a.grad * b.val + a.val * b.grad⟩⟩

instance : Neg AD := ⟨fun a => ⟨-a.val, -a.grad⟩⟩

noncomputable instance : Div AD :=
  ⟨fun a b => ⟨a.val / b.val,
    (a.grad * b.val - a.val * b.grad) / (b.val * b.val)⟩⟩

/-- A constant: zero derivative. -/
def AD.const (r : ℝ) : AD := ⟨r, 0⟩

/-- `tensor.detach()` on a dual number: keep the value, kill the
derivative. -/
def AD.stopGrad (a : AD) : AD := ⟨a.val, 0⟩

/-- Forward-mode exponential. -/
noncomputable def AD.exp (a : AD) : AD :=
  ⟨Real.exp a.val, a.grad * Real.exp a.val⟩

/-- Forward-mode logarithm. -/
noncomputable def AD.log (a : AD) : AD := ⟨Real.log a.val, a.grad / a.val⟩

/-- Sum of a list of dual numbers. -/
noncomputable def sumAD (l : List AD) : AD := l.foldr (· + ·) (AD.const 0)

/-- Mean of a list of dual numbers. -/
noncomputable def meanAD (xs : List AD) : AD := sumAD xs / AD.const xs.length

/-- `F.logsigmoid` on dual numbers. -/
noncomputable def logsigmoidAD (x : AD) : AD :=
  AD.log (AD.const 1 / (AD.const 1 + AD.exp (-x)))

/-- `F.softmax` over one row of dual numbers. -/
noncomputable def softmaxAD (xs : List AD) : List AD :=
  xs.map (fun x => AD.exp x / sumAD (xs.map AD.exp))

/-- The code's per-example negative term on dual numbers: the softmax
weights pass through `stopGrad` exactly as the source applies
`.detach()`. -/
noncomputable def transeNegRowAD (row : List AD) : AD :=
  sumAD (List.zipWith (fun w s => AD.stopGrad w * logsigmoidAD (-s))
    (softmaxAD row) row)

/-- The code's TransE loss from scores, on dual numbers. -/
noncomputable def transeLossAD (pos : List AD) (negs : List (List AD)) : AD :=
  (-(meanAD (pos.map logsigmoidAD)) + -(meanAD (negs.map transeNegRowAD)))
    / AD.const 2

/-- Spec-side per-example negative term: the weights `w_ij` are plain
constants, computed by a softmax over the score values only. -/
noncomputable def transeNegRowSpecAD (row : List AD) : AD :=
  sumAD (List.zipWith (fun w s => AD.const w * logsigmoidAD (-s))
    (softmaxList (row.map AD.val)) row)

/-- Spec-side TransE loss on dual numbers:
`(mean(-logsigmoid(pos)) + mean(-Σ w * logsigmoid(-neg))) / 2` with the
weights held constant. -/
noncomputable def transeLossSpecAD (pos : List AD) (negs : List (List AD)) : AD :=
  (meanAD (pos.map (fun p => -(logsigmoidAD p)))
    + meanAD (negs.map (fun row => -(transeNegRowSpecAD row)))) / AD.const 2

/-! ## RobertaForTogether.forward: margin-based in-batch branch

Lines 1416-1428 (`self.p` not `None`, `self.in_batch`): with
`loss_mask = (cur_page_ids != neg_page_ids)`,

    negative_score = γ - ‖query_i - neg_j‖₁
    valid = loss_mask.sum()
    negative_score = logsigmoid(-negative_score) * loss_mask
    negative_sample_loss = -(negative_score / valid).sum()

Each query and each pooled negative is a pair of its vector and its page
id. -/

/-- The mask entry for one (query, negative) pair: `1.0` when the page
ids differ, `0.0` on a false-negative collision. -/
def collideMask (ci ni : ℤ) : ℝ := if ci = ni then 0 else 1

/-- `valid = loss_mask.sum()`: one global sum over the whole matrix. -/
def inBatchValid (qs ns : List (List ℝ × ℤ)) : ℝ :=
  (qs.map (fun q => (ns.map (fun n => collideMask q.2 n.2)).sum)).sum

/-- The in-batch margin negative loss
`-(logsigmoid(-negative_score) * loss_mask / valid).sum()`. -/
noncomputable def togetherNegInBatch (γ : ℝ) (qs ns : List (List ℝ × ℤ)) : ℝ :=
  -((qs.map (fun q =>
      (ns.map (fun n =>
        logsigmoid (-(γ - l1norm (vsub q.1 n.1))) * collideMask q.2 n.2
          / inBatchValid qs ns)).sum)).sum)

/-- All (query, negative) pairs of the batch, in row-major order. -/
def allPairs (qs ns : List (List ℝ × ℤ)) :
    List ((List ℝ × ℤ) × (List ℝ × ℤ)) :=
  qs.flatMap (fun q => ns.map (fun n => (q, n)))

/-- The non-colliding (query, negative) pairs. -/
def validPairs (qs ns : List (List ℝ × ℤ)) :
    List ((List ℝ × ℤ) × (List ℝ × ℤ)) :=
  (allPairs qs ns).filter (fun p => decide (p.1.2 ≠ p.2.2))

/-- The raw per-pair negative term `logsigmoid(-(γ - ‖q - n‖₁))`. -/
noncomputable def negPairTerm (γ : ℝ)
    (p : (List ℝ × ℤ) × (List ℝ × ℤ)) : ℝ :=
  logsigmoid (-(γ - l1norm (vsub p.1.1 p.2.1)))

/-! ## Gradient-flow tags for `RobertaForTogether` rep preparation

A batch of vectors tagged with whether gradient still flows into it
(`requires_grad` connectivity); `detach` keeps the values and clears the
tag. -/

/-- A tagged batch: vectors plus a gradient-flow tag. -/
def TB : Type := List (List ℝ) × Bool

/-- `tensor.detach()`: same values, no gradient flow. -/
def detachT (x : TB) : TB := (x.1, false)

/-- Lines 1383-1389 of `RobertaForTogether.forward`:

    query_rep = entity_rep[:bsz]
    pos_rep = entity_rep[bsz:2*bsz].detach()
    neg_rep = entity_rep[2*bsz:].detach()
    if self.is_detach:
        pos_rep = pos_rep.detach()
        neg_rep = neg_rep.detach()
-/
def prepareReps (e : TB) (bsz : ℕ) (is_detach : Bool) : TB × TB × TB :=
  let query_rep : TB := (e.1.take bsz, e.2)
  let pos_rep : TB := detachT ((e.1.drop bsz).take bsz, e.2)
  let neg_rep : TB := detachT (e.1.drop (2 * bsz), e.2)
  if is_detach then
    (query_rep, detachT pos_rep, detachT neg_rep)
  else
    (query_rep, pos_rep, neg_rep)

/-! ## Theorems -/

/-- Claim C5, counterexample: a flat batch of length 7 with `K = 1` does
not satisfy `length = bsz * (K + 2)` (7 ≠ 2·3), yet the layout
construction does not fail: it silently returns slices, and the negative
slice even has length 3 instead of `bsz * K = 2`. -/
theorem c5_no_layout_error_at_len7 :
    ([0, 1, 2, 3, 4, 5, 6] : List ℕ).length ≠ layoutBsz 7 1 * (1 + 2) ∧
    layoutSlices ([0, 1, 2, 3, 4, 5, 6] : List ℕ) 1
      = ([0, 1], [2, 3], [4, 5, 6]) ∧
    (layoutSlices ([0, 1, 2, 3, 4, 5, 6] : List ℕ) 1).2.2.length
      ≠ layoutBsz 7 1 * 1 := by
  refine ⟨by decide, by decide, by decide⟩

/-- Claim C5, amended: the layout never fails.  `bsz` is derived by floor
division `len / (K + 2)` and the three slices are always produced; their
concatenation is the original array, the query and positive slices have
length `bsz`, and all remaining `len - 2*bsz` elements (including any
leftover when `K + 2` does not divide `len`) fall into the negative
slice. -/
theorem layoutSlices_total_no_error {α : Type} (xs : List α) (K : ℕ) :
    (layoutSlices xs K).1 ++ (layoutSlices xs K).2.1 ++ (layoutSlices xs K).2.2
        = xs ∧
    (layoutSlices xs K).1.length = layoutBsz xs.length K ∧
    (layoutSlices xs K).2.1.length = layoutBsz xs.length K ∧
    (layoutSlices xs K).2.2.length
        = xs.length - 2 * layoutBsz xs.length K := by
  have hb : layoutBsz xs.length K * (K + 2) ≤ xs.length :=
    Nat.div_mul_le_self _ _
  have h2 : 2 * layoutBsz xs.length K ≤ layoutBsz xs.length K * (K + 2) := by
    rw [mul_comm]
    exact Nat.mul_le_mul_left _ (by omega)
  have hlen : 2 * layoutBsz xs.length K ≤ xs.length := le_trans h2 hb
  refine ⟨?_, ?_, ?_, ?_⟩
  · simp only [layoutSlices]
    rw [two_mul, ← List.drop_drop, List.append_assoc,
      List.take_append_drop, List.take_append_drop]
  · simp only [layoutSlices, List.length_take]
    omega
  · simp only [layoutSlices, List.length_take, List.length_drop]
    omega
  · simp only [layoutSlices, List.length_drop]

/-- The code's gathered row coincides with the spec's three-step
`g_row` (placeholder replacement, gather, sentinel overwrite). -/
theorem gatherRow_eq_specGRow (ig : ℤ) (row : List ℝ) (tgt : List ℤ) :
    gatherRow ig row tgt = specGRow ig row tgt := by
  induction tgt with
  | nil => rfl
  | cons t ts ih =>
    have hhead :
        (if t = ig then sentinelNeg
          else row.getD (maskedTargetZ ig t).toNat 0)
        = (if t = ig then sentinelNeg
            else row.getD ((if t = ig then (0 : ℤ) else t)).toNat 0) := by
      by_cases h : t = ig
      · simp [h]
      · simp [h, maskedTargetZ]
    simp only [gatherRow, specGRow, specOverwrite, specGatherStep,
      specPlaceholder, List.map_cons, List.zipWith_cons_cons] at ih ⊢
    rw [hhead, ih]

/-- Per-example marginal span loss, rewritten as
`logsumexp(logits_row) - logsumexp(g_row)`. -/
theorem or_loss_row_eq_sub (ig : ℤ) (row : List ℝ) (tgt : List ℤ) :
    or_loss_row ig row tgt
      = logsumexp row - logsumexp (specGRow ig row tgt) := by
  rw [or_loss_row, gatherRow_eq_specGRow]; ring

/-- Claim C1: for a batch of logits rows and target rows whose non-ignored
entries are in-range indices, the marginal span loss with
`ignore_index = -1` is the mean over the examples of
`logsumexp(logits_row) - logsumexp(g_row)`, where `g_row` gathers the
logits at the targets (ignored slots first replaced by the placeholder
index 0) and then overwrites the gathered values at ignored slots with the
large negative sentinel. -/
theorem or_softmax_loss_is_mean_marginal_ce
    (logits : List (List ℝ)) (target : List (List ℤ))
    (hlen : target.length = logits.length)
    (_hvalid : ∀ p ∈ List.zip logits target, validRow (-1) p.1.length p.2) :
    or_softmax_cross_entropy_loss_one_doc logits target (-1)
      = (List.zipWith
          (fun row tgt => logsumexp row - logsumexp (specGRow (-1) row tgt))
          logits target).sum / logits.length := by
  unfold or_softmax_cross_entropy_loss_one_doc mean
  have hf : or_loss_row (-1)
      = fun row tgt => logsumexp row - logsumexp (specGRow (-1) row tgt) := by
    funext row tgt
    exact or_loss_row_eq_sub (-1) row tgt
  rw [hf, List.length_zipWith, hlen, Nat.min_self]

/-- Witness for C1 at the spec's own worked example
`logits = [[5,1,1,1]]`, `targets = [[0,-1]]`. -/
theorem or_softmax_loss_is_mean_marginal_ce_witness :
    (([[0, -1]] : List (List ℤ)).length
        = ([[5, 1, 1, 1]] : List (List ℝ)).length) ∧
    (∀ p ∈ List.zip ([[5, 1, 1, 1]] : List (List ℝ))
        ([[0, -1]] : List (List ℤ)), validRow (-1) p.1.length p.2) ∧
    or_softmax_cross_entropy_loss_one_doc [[5, 1, 1, 1]] [[0, -1]] (-1)
      = (List.zipWith
          (fun row tgt => logsumexp row - logsumexp (specGRow (-1) row tgt))
          [[5, 1, 1, 1]] [[0, -1]]).sum
        / ([[5, 1, 1, 1]] : List (List ℝ)).length :=
  ⟨by decide, by decide,
    or_softmax_loss_is_mean_marginal_ce [[5, 1, 1, 1]] [[0, -1]]
      (by decide) (by decide)⟩

/-- Claim C6: when a target row consists entirely of `ignore_index`, the
gathered row is all sentinel, the numerator is the `logsumexp` of an
all-sentinel row — the explicit large negative real number
`log(T_max) + (-10000)` — and the per-example loss is the well-defined
real value `logsumexp(logits) - (log(T_max) - 10000)`: no fault, no
special-casing. -/
theorem or_loss_row_all_ignored (row : List ℝ) (tgt : List ℤ)
    (hne : tgt ≠ []) (hall : ∀ t ∈ tgt, t = -1) :
    gatherRow (-1) row tgt = List.replicate tgt.length sentinelNeg ∧
    logsumexp (List.replicate tgt.length sentinelNeg)
      = Real.log tgt.length + sentinelNeg ∧
    or_loss_row (-1) row tgt
      = logsumexp row - (Real.log tgt.length + sentinelNeg) := by
  have hlen0 : (tgt.length : ℝ) ≠ 0 := by
    simpa [List.length_eq_zero] using hne
  have hg : gatherRow (-1) row tgt = List.replicate tgt.length sentinelNeg := by
    unfold gatherRow
    refine List.eq_replicate_iff.mpr ⟨by simp, ?_⟩
    intro b hb
    obtain ⟨t, ht, rfl⟩ := List.mem_map.mp hb
    rw [if_pos (hall t ht)]
  have hlse : logsumexp (List.replicate tgt.length sentinelNeg)
      = Real.log tgt.length + sentinelNeg := by
    unfold logsumexp
    rw [List.map_replicate, List.sum_replicate, nsmul_eq_mul,
      Real.log_mul hlen0 (Real.exp_ne_zero _), Real.log_exp]
  refine ⟨hg, hlse, ?_⟩
  rw [or_loss_row, hg, hlse]
  ring

/-- Witness for C6 at `logits_row = [1,2]`, `targets_row = [-1,-1]`. -/
theorem or_loss_row_all_ignored_witness :
    (([-1, -1] : List ℤ) ≠ []) ∧
    (∀ t ∈ ([-1, -1] : List ℤ), t = -1) ∧
    (gatherRow (-1) [(1 : ℝ), 2] [-1, -1]
        = List.replicate ([-1, -1] : List ℤ).length sentinelNeg ∧
      logsumexp (List.replicate ([-1, -1] : List ℤ).length sentinelNeg)
        = Real.log ([-1, -1] : List ℤ).length + sentinelNeg ∧
      or_loss_row (-1) [(1 : ℝ), 2] [-1, -1]
        = logsumexp [(1 : ℝ), 2]
          - (Real.log ([-1, -1] : List ℤ).length + sentinelNeg)) :=
  ⟨by decide, by decide,
    or_loss_row_all_ignored [(1 : ℝ), 2] [-1, -1] (by decide) (by decide)⟩

/-- Claim C7: on the single-example logits row `[5,4,1,1]` with
`ignore_index = -1`, the marginal span loss with both gold positions 0 and
1 (logits 5 and 4) is strictly lower than the loss with gold position 0
alone, and strictly lower than the loss with gold position 1 alone,
because `logsumexp [5,4]` strictly exceeds each single-gold numerator. -/
theorem or_softmax_loss_two_golds_lt_single :
    or_softmax_cross_entropy_loss_one_doc [[5, 4, 1, 1]] [[0, 1]] (-1)
      < or_softmax_cross_entropy_loss_one_doc [[5, 4, 1, 1]] [[0]] (-1) ∧
    or_softmax_cross_entropy_loss_one_doc [[5, 4, 1, 1]] [[0, 1]] (-1)
      < or_softmax_cross_entropy_loss_one_doc [[5, 4, 1, 1]] [[1]] (-1) := by
  have g2 : gatherRow (-1) [(5 : ℝ), 4, 1, 1] [0, 1] = [5, 4] := rfl
  have ga : gatherRow (-1) [(5 : ℝ), 4, 1, 1] [0] = [5] := rfl
  have gb : gatherRow (-1) [(5 : ℝ), 4, 1, 1] [1] = [4] := rfl
  have e2 : or_softmax_cross_entropy_loss_one_doc [[5, 4, 1, 1]] [[0, 1]] (-1)
      = -(logsumexp [(5 : ℝ), 4] - logsumexp [(5 : ℝ), 4, 1, 1]) := by
    simp [or_softmax_cross_entropy_loss_one_doc, mean, or_loss_row, g2]
  have ea : or_softmax_cross_entropy_loss_one_doc [[5, 4, 1, 1]] [[0]] (-1)
      = -(logsumexp [(5 : ℝ)] - logsumexp [(5 : ℝ), 4, 1, 1]) := by
    simp [or_softmax_cross_entropy_loss_one_doc, mean, or_loss_row, ga]
  have eb : or_softmax_cross_entropy_loss_one_doc [[5, 4, 1, 1]] [[1]] (-1)
      = -(logsumexp [(4 : ℝ)] - logsumexp [(5 : ℝ), 4, 1, 1]) := by
    simp [or_softmax_cross_entropy_loss_one_doc, mean, or_loss_row, gb]
  have ha : logsumexp [(5 : ℝ)] < logsumexp [(5 : ℝ), 4] := by
    unfold logsumexp
    simp only [List.map_cons, List.map_nil, List.sum_cons, List.sum_nil]
    refine Real.log_lt_log (by positivity) ?_
    have := Real.exp_pos (4 : ℝ)
    linarith
  have hb : logsumexp [(4 : ℝ)] < logsumexp [(5 : ℝ), 4] := by
    unfold logsumexp
    simp only [List.map_cons, List.map_nil, List.sum_cons, List.sum_nil]
    refine Real.log_lt_log (by positivity) ?_
    have := Real.exp_pos (5 : ℝ)
    linarith
  rw [e2, ea, eb]
  constructor <;> linarith

/-- Claim C10: gold target indices are not deduplicated.  With logits row
`[0]` and target row `[0,0]`, the same valid index 0 fills both slots, the
gathered row counts the logit twice, and the returned loss is strictly
negative. -/
theorem or_softmax_loss_duplicate_gold_negative :
    gatherRow (-1) [(0 : ℝ)] [0, 0] = [0, 0] ∧
    or_softmax_cross_entropy_loss_one_doc [[(0 : ℝ)]] [[0, 0]] (-1) < 0 := by
  have hg : gatherRow (-1) [(0 : ℝ)] [0, 0] = [0, 0] := rfl
  have e : or_softmax_cross_entropy_loss_one_doc [[(0 : ℝ)]] [[0, 0]] (-1)
      = -(logsumexp [(0 : ℝ), 0] - logsumexp [(0 : ℝ)]) := by
    simp [or_softmax_cross_entropy_loss_one_doc, mean, or_loss_row, hg]
  have h2 : logsumexp [(0 : ℝ), 0] = Real.log 2 := by
    unfold logsumexp
    norm_num [Real.exp_zero]
  have h1 : logsumexp [(0 : ℝ)] = 0 := by
    unfold logsumexp
    norm_num [Real.exp_zero]
  have hpos : (0 : ℝ) < Real.log 2 := Real.log_pos (by norm_num)
  refine ⟨hg, ?_⟩
  rw [e, h2, h1]
  linarith

/-- `logsumexp` is invariant under permutation of the row. -/
theorem logsumexp_perm {xs ys : List ℝ} (h : xs.Perm ys) :
    logsumexp xs = logsumexp ys := by
  unfold logsumexp
  rw [List.Perm.sum_eq (h.map Real.exp)]

/-- Claim C4: the listwise softmax cross-entropy (logits
`[positive_score, negative_scores...]`, gold label 0) is invariant under
any reordering of each example's negative scores. -/
theorem listwiseLoss_perm_invariant (pos : List ℝ)
    (negs negs' : List (List ℝ)) (h : List.Forall₂ List.Perm negs negs') :
    listwiseLoss pos negs = listwiseLoss pos negs' := by
  unfold listwiseLoss
  suffices hz : List.zipWith (fun p ns => ceRow0 (p :: ns)) pos negs
      = List.zipWith (fun p ns => ceRow0 (p :: ns)) pos negs' by rw [hz]
  induction h generalizing pos with
  | nil => rfl
  | @cons a b as bs hab htl ih =>
    cases pos with
    | nil => rfl
    | cons p ps =>
      have hrow : ceRow0 (p :: a) = ceRow0 (p :: b) := by
        unfold ceRow0
        rw [logsumexp_perm (List.Perm.cons p hab)]
        simp
      simp only [List.zipWith_cons_cons]
      rw [hrow, ih]

/-- Witness for C4: one example, negatives `[1,2]` against `[2,1]`. -/
theorem listwiseLoss_perm_invariant_witness :
    List.Forall₂ List.Perm ([[(1 : ℝ), 2]] : List (List ℝ)) [[(2 : ℝ), 1]] ∧
    listwiseLoss [(0 : ℝ)] [[(1 : ℝ), 2]]
      = listwiseLoss [(0 : ℝ)] [[(2 : ℝ), 1]] :=
  ⟨List.Forall₂.cons (List.Perm.swap 2 1 []) List.Forall₂.nil,
    listwiseLoss_perm_invariant [(0 : ℝ)] [[(1 : ℝ), 2]] [[(2 : ℝ), 1]]
      (List.Forall₂.cons (List.Perm.swap 2 1 []) List.Forall₂.nil)⟩

/-- Claim C3, counterexample: take one query `[1]` and one pooled negative
`[7]` with colliding page ids.  The raw score is `dot [1] [7] = 7` and the
masked matrix entry is `7 - 10000 = -9993`: it equals neither the fixed
sentinel `-10000` nor the raw score — the code subtracts `10000` from the
raw score instead of overwriting with a sentinel. -/
theorem c3_masked_entry_not_sentinel :
    inBatchNegScore [[1]] [[7]] [5] [5] 0 0 = -9993 ∧
    inBatchNegScore [[1]] [[7]] [5] [5] 0 0 ≠ sentinelNeg ∧
    inBatchNegScore [[1]] [[7]] [5] [5] 0 0 ≠ dot [1] [7] := by
  have h : inBatchNegScore [[1]] [[7]] [5] [5] 0 0 = -9993 := by
    norm_num [inBatchNegScore, dot]
  refine ⟨h, ?_, ?_⟩
  · rw [h]; norm_num [sentinelNeg]
  · rw [h]; norm_num [dot]

/-- Claim C3, amended: for every colliding pair
(`cur_page_ids[i] == neg_page_ids[j]`), the entry of the negative score
matrix used for loss aggregation equals the raw computed score minus the
large constant 10000 (a large negative offset applied to the raw score),
not a fixed sentinel value. -/
theorem inBatchNegScore_masked_is_offset (queries negPool : List (List ℝ))
    (curIds negIds : List ℤ) (i j : ℕ)
    (h : curIds.getD i 0 = negIds.getD j 0) :
    inBatchNegScore queries negPool curIds negIds i j
      = dot (queries.getD i []) (negPool.getD j []) - 10000 := by
  unfold inBatchNegScore
  rw [if_pos h]
  ring

/-- Witness for the amended C3 at the counterexample batch. -/
theorem inBatchNegScore_masked_is_offset_witness :
    (([5] : List ℤ).getD 0 0 = ([5] : List ℤ).getD 0 0) ∧
    inBatchNegScore [[1]] [[7]] [5] [5] 0 0
      = dot (([[1]] : List (List ℝ)).getD 0 [])
          (([[7]] : List (List ℝ)).getD 0 []) - 10000 :=
  ⟨rfl, inBatchNegScore_masked_is_offset [[1]] [[7]] [5] [5] 0 0 (by decide)⟩

/-- Claim C8, counterexample: in `RobertaForTogether.forward`, with the
detach flag unset, the positive and negative representations are
nevertheless detached (gradient-flow tag `false`), because the source
applies `.detach()` unconditionally before consulting the flag; the claim
says gradient should flow through them when the flag is unset. -/
theorem c8_detach_flag_unset_still_detached :
    (prepareReps (([[1], [2], [3]] : List (List ℝ)), true) 1 false).2.1.2
        = false ∧
    (prepareReps (([[1], [2], [3]] : List (List ℝ)), true) 1 false).2.2.2
        = false := by
  exact ⟨rfl, rfl⟩

/-- Claim C8, amended: the positive and negative representations are
detached unconditionally — the optional flag only detaches them a second
time, which is a no-op — so no gradient flows back through the positive
and negative branches regardless of the flag, while the query branch
always keeps gradient flowing; values are unaffected. -/
theorem prepareReps_unconditional_detach (vals : List (List ℝ)) (g : Bool)
    (bsz : ℕ) (flag : Bool) :
    (prepareReps (vals, g) bsz flag).2.1.2 = false ∧
    (prepareReps (vals, g) bsz flag).2.2.2 = false ∧
    (prepareReps (vals, g) bsz flag).1.2 = g ∧
    (prepareReps (vals, g) bsz flag).1.1 = vals.take bsz ∧
    (prepareReps (vals, g) bsz flag).2.1.1 = (vals.drop bsz).take bsz ∧
    (prepareReps (vals, g) bsz flag).2.2.1 = vals.drop (2 * bsz) := by
  cases flag <;> simp [prepareReps, detachT]

/-- Summing `x / v` over a list equals the sum divided by `v`. -/
theorem sum_map_div {α : Type} (l : List α) (g : α → ℝ) (v : ℝ) :
    (l.map (fun x => g x / v)).sum = (l.map g).sum / v := by
  induction l with
  | nil => simp
  | cons x xs ih => simp [ih, add_div]

/-- A masked row sum collapses to a sum over the non-colliding entries. -/
theorem sum_mul_collideMask (q : List ℝ × ℤ) (ns : List (List ℝ × ℤ))
    (g : List ℝ × ℤ → ℝ) :
    (ns.map (fun n => g n * collideMask q.2 n.2)).sum
      = ((ns.filter (fun n => decide (q.2 ≠ n.2))).map g).sum := by
  induction ns with
  | nil => rfl
  | cons n ns ih =>
    rw [List.map_cons, List.sum_cons, List.filter_cons]
    by_cases h : q.2 = n.2
    · have hd : decide (q.2 ≠ n.2) = false := by simp [h]
      have hm0 : collideMask q.2 n.2 = 0 := if_pos h
      rw [hd, hm0, mul_zero, zero_add, ih]
      simp
    · have hd : decide (q.2 ≠ n.2) = true := by simp [h]
      have hm1 : collideMask q.2 n.2 = 1 := if_neg h
      rw [hd, hm1, mul_one, ih]
      simp

/-- A mask row sum counts the non-colliding entries. -/
theorem sum_collideMask_count (q : List ℝ × ℤ) (ns : List (List ℝ × ℤ)) :
    (ns.map (fun n => collideMask q.2 n.2)).sum
      = ((ns.filter (fun n => decide (q.2 ≠ n.2))).length : ℝ) := by
  induction ns with
  | nil => simp
  | cons n ns ih =>
    rw [List.map_cons, List.sum_cons, List.filter_cons]
    by_cases h : q.2 = n.2
    · have hd : decide (q.2 ≠ n.2) = false := by simp [h]
      have hm0 : collideMask q.2 n.2 = 0 := if_pos h
      rw [hd, hm0, zero_add, ih]
      simp
    · have hd : decide (q.2 ≠ n.2) = true := by simp [h]
      have hm1 : collideMask q.2 n.2 = 1 := if_neg h
      rw [hd, hm1, ih]
      simp only [if_true, List.length_cons]
      push_cast
      ring

/-- Unfolding `validPairs` one query at a time. -/
theorem validPairs_cons (q : List ℝ × ℤ) (qs ns : List (List ℝ × ℤ)) :
    validPairs (q :: qs) ns
      = ((ns.filter (fun n => decide (q.2 ≠ n.2))).map (fun n => (q, n)))
        ++ validPairs qs ns := by
  unfold validPairs allPairs
  simp only [List.flatMap_cons, List.filter_append]
  congr 1
  induction ns with
  | nil => rfl
  | cons n ns ih =>
    rw [List.map_cons, List.filter_cons, List.filter_cons]
    by_cases h : q.2 = n.2
    · have hd : decide (q.2 ≠ n.2) = false := by simp [h]
      rw [hd]
      simp only [Bool.false_eq_true, if_false, ih]
    · have hd : decide (q.2 ≠ n.2) = true := by simp [h]
      rw [hd]
      simp only [if_true, List.map_cons, ih]

/-- The double masked sum over the batch equals the sum of the raw terms
over the non-colliding pairs. -/
theorem batch_masked_sum (γ : ℝ) (qs ns : List (List ℝ × ℤ)) :
    (qs.map (fun q => (ns.map (fun n =>
        logsigmoid (-(γ - l1norm (vsub q.1 n.1)))
          * collideMask q.2 n.2)).sum)).sum
      = ((validPairs qs ns).map (negPairTerm γ)).sum := by
  induction qs with
  | nil => simp [validPairs, allPairs]
  | cons q qs ih =>
    rw [List.map_cons, List.sum_cons, validPairs_cons, List.map_append,
      List.sum_append, ih]
    congr 1
    rw [sum_mul_collideMask q ns
      (fun n => logsigmoid (-(γ - l1norm (vsub q.1 n.1)))), List.map_map]
    rfl

/-- Claim C9: in the margin-based in-batch branch of
`RobertaForTogether.forward`, every colliding (query, negative) pair is
multiplied by a zero mask entry, and the negative loss equals the sum of
`logsigmoid(-(γ - ‖q - n‖₁))` over the non-colliding pairs of the whole
batch, negated and divided by one global divisor: the total count of
non-colliding pairs (`valid = loss_mask.sum()`), not a per-query count. -/
theorem togetherNegInBatch_global_divisor (γ : ℝ)
    (qs ns : List (List ℝ × ℤ)) :
    togetherNegInBatch γ qs ns
      = -(((validPairs qs ns).map (negPairTerm γ)).sum
          / ((validPairs qs ns).length : ℝ)) ∧
    inBatchValid qs ns = ((validPairs qs ns).length : ℝ) := by
  have hcount : inBatchValid qs ns = ((validPairs qs ns).length : ℝ) := by
    induction qs with
    | nil => simp [inBatchValid, validPairs, allPairs]
    | cons q qs ih =>
      simp only [inBatchValid, List.map_cons, List.sum_cons] at ih ⊢
      rw [validPairs_cons, List.length_append, ih, sum_collideMask_count,
        List.length_map]
      push_cast
      ring
  refine ⟨?_, hcount⟩
  unfold togetherNegInBatch
  have hrow : (fun q : List ℝ × ℤ => (ns.map (fun n =>
      logsigmoid (-(γ - l1norm (vsub q.1 n.1))) * collideMask q.2 n.2
        / inBatchValid qs ns)).sum)
      = fun q : List ℝ × ℤ => (ns.map (fun n =>
          logsigmoid (-(γ - l1norm (vsub q.1 n.1)))
            * collideMask q.2 n.2)).sum / inBatchValid qs ns := by
    funext q
    exact sum_map_div ns _ _
  rw [hrow, sum_map_div qs _ _, batch_masked_sum, hcount]

/-- Negation distributes over a mapped sum. -/
theorem sum_map_neg {α : Type} (l : List α) (f : α → ℝ) :
    (l.map (fun x => -(f x))).sum = -((l.map f).sum) := by
  induction l with
  | nil => simp
  | cons x xs ih => simp [ih]; ring

/-- Negation distributes over a mapped mean. -/
theorem mean_map_neg {α : Type} (l : List α) (f : α → ℝ) :
    mean (l.map (fun x => -(f x))) = -(mean (l.map f)) := by
  unfold mean
  rw [sum_map_neg, List.length_map, List.length_map, neg_div]

@[simp]
theorem AD.val_add (a b : AD) : (a + b).val = a.val + b.val := rfl

@[simp]
theorem AD.grad_add (a b : AD) : (a + b).grad = a.grad + b.grad := rfl

@[simp]
theorem AD.val_neg (a : AD) : (-a).val = -a.val := rfl

@[simp]
theorem AD.grad_neg (a : AD) : (-a).grad = -a.grad := rfl

@[simp]
theorem AD.val_div (a b : AD) : (a / b).val = a.val / b.val := rfl

@[simp]
theorem AD.grad_div (a b : AD) :
    (a / b).grad = (a.grad * b.val - a.val * b.grad) / (b.val * b.val) := rfl

@[simp]
theorem AD.val_const (r : ℝ) : (AD.const r).val = r := rfl

@[simp]
theorem AD.grad_const (r : ℝ) : (AD.const r).grad = 0 := rfl

@[simp]
theorem AD.val_exp (a : AD) : (AD.exp a).val = Real.exp a.val := rfl

/-- `stopGrad` keeps the value and zeroes the derivative; on values it is
`AD.const` of the value. -/
theorem AD.stopGrad_eq_const_val (a : AD) : AD.stopGrad a = AD.const a.val := rfl

/-- The value of a dual-number sum is the sum of the values. -/
theorem sumAD_val (l : List AD) : (sumAD l).val = (l.map AD.val).sum := by
  induction l with
  | nil => rfl
  | cons x xs ih =>
    show (x + sumAD xs).val = x.val + (xs.map AD.val).sum
    rw [AD.val_add, ih]

/-- The values of the dual-number softmax are the softmax of the values. -/
theorem softmaxAD_val (xs : List AD) :
    (softmaxAD xs).map AD.val = softmaxList (xs.map AD.val) := by
  unfold softmaxAD softmaxList
  rw [List.map_map, List.map_map]
  refine List.map_congr_left ?_
  intro x _
  show (AD.exp x / sumAD (xs.map AD.exp)).val
      = Real.exp x.val / ((xs.map AD.val).map Real.exp).sum
  rw [AD.val_div, AD.val_exp, sumAD_val, List.map_map, List.map_map]
  rfl

/-- Replacing `stopGrad` of the weights by constants built from the weight
values leaves a weighted `zipWith` unchanged. -/
theorem zipWith_stopGrad_eq_const (g : AD → AD) (ws ss : List AD) :
    List.zipWith (fun w s => AD.stopGrad w * g s) ws ss
      = List.zipWith (fun wv s => AD.const wv * g s) (ws.map AD.val) ss := by
  induction ws generalizing ss with
  | nil => rfl
  | cons w ws ih =>
    cases ss with
    | nil => rfl
    | cons s ss =>
      rw [List.map_cons, List.zipWith_cons_cons, List.zipWith_cons_cons, ih]
      rfl

/-- The code's detached-softmax negative term equals the spec's
constant-weight negative term, value and derivative alike. -/
theorem transeNegRowAD_eq_spec (row : List AD) :
    transeNegRowAD row = transeNegRowSpecAD row := by
  unfold transeNegRowAD transeNegRowSpecAD
  rw [zipWith_stopGrad_eq_const (fun s => logsigmoidAD (-s)) (softmaxAD row)
    row, softmaxAD_val]

/-- Negation distributes over dual-number addition. -/
theorem AD.neg_add_dual (a b : AD) : -(a + b) = -a + -b := by
  ext <;>
    simp only [AD.val_add, AD.val_neg, AD.grad_add, AD.grad_neg] <;>
    ring

/-- Negation distributes over a mapped dual-number sum. -/
theorem sumAD_map_neg {α : Type} (l : List α) (f : α → AD) :
    sumAD (l.map (fun x => -(f x))) = -(sumAD (l.map f)) := by
  induction l with
  | nil => ext <;> simp [sumAD, AD.const]
  | cons x xs ih =>
    simp only [List.map_cons, sumAD, List.foldr_cons] at ih ⊢
    rw [ih, AD.neg_add_dual]

/-- Negation distributes over a mapped dual-number mean. -/
theorem meanAD_map_neg {α : Type} (l : List α) (f : α → AD) :
    meanAD (l.map (fun x => -(f x))) = -(meanAD (l.map f)) := by
  unfold meanAD
  rw [sumAD_map_neg, List.length_map, List.length_map]
  ext <;> simp <;> ring

/-- Claim C2: `RobertaForTransE.forward` (margin formulation with
self-adversarial weighting, no subsampling weight).  First conjunct: the
returned loss on score values equals
`(mean(-logsigmoid(pos_i)) + mean(-Σ_j w_ij * logsigmoid(-neg_ij))) / 2`,
with `pos_i = γ - ‖h_i + r_i - t_i‖₁`, per-negative scores
`γ - ‖(h_i + r_i) - negT_ij‖₁` from the same translational-distance
formula, and `w_ij = softmax_j(neg_ij)`.  Second conjunct: on dual numbers
(forward-mode derivatives), the code's loss — whose softmax weights pass
through `stopGrad`, modelling `.detach()` — coincides exactly (value and
derivative) with the spec's loss in which the weights are constants, so no
gradient flows through the weights. -/
theorem transe_loss_formula_and_stopgrad (γ : ℝ) (h r t : List (List ℝ))
    (negT : List (List (List ℝ))) (pos : List AD) (negs : List (List AD)) :
    (transeForward γ h r t negT
      = (mean ((List.zipWith (fun a b => γ - l1norm (vsub a b))
            (List.zipWith vadd h r) t).map (fun s => -(logsigmoid s)))
        + mean ((List.zipWith
              (fun a row => row.map (fun b => γ - l1norm (vsub a b)))
              (List.zipWith vadd h r) negT).map
            (fun row => -((List.zipWith (fun w s => w * logsigmoid (-s))
                (softmaxList row) row).sum)))) / 2) ∧
    transeLossAD pos negs = transeLossSpecAD pos negs := by
  constructor
  · unfold transeForward transeLossFromScores transeNegRow
    rw [mean_map_neg, mean_map_neg]
    simp only [detachR]
  · unfold transeLossAD transeLossSpecAD
    rw [meanAD_map_neg pos logsigmoidAD,
      meanAD_map_neg negs transeNegRowSpecAD]
    have hrow : transeNegRowAD = transeNegRowSpecAD :=
      funext transeNegRowAD_eq_spec
    rw [hrow]

end Roberta
